import Mathlib

/-!
Shallow embedding of `src/main/python/snowfall/annualExceedence.py`: the
annual-exceedence pipeline (ingestion, season segmentation, aggregation,
normalization) together with the printing entry point, and theorems about
the claims of the specification.

Modelling conventions:
* Python floats are modelled by `ℚ`; the float literal `0.01` is `1/100`,
  and Python's `round` is the rational round-to-nearest (they agree away
  from exact half-integer ties, which none of the inputs used here hit).
* A CSV data row is modelled by its two significant fields: the date field
  (the string in column `date_column`) and the data field, which is `none`
  for the empty string and `some q` for a string that Python's `float`
  parses to the value `q` (rows whose data field is a non-empty string
  that parses to no float are outside the model, as is a header row with
  no cells).
* Python dicts are association lists in insertion order (`upsert` keeps an
  existing key's position and appends new keys at the end, exactly like
  dict assignment); Python sets of season labels are duplicate-free lists
  (`setAdd` inserts only absent elements). The script only uses its sets
  through membership, intersection, `min` and `max`, all of which are
  independent of the order of iteration, so a list is a faithful model.
* Uncaught Python exceptions are the `Err` values of an `Except`
  computation: `DataError` (with its message), `IndexError`, and
  `ValueError` (raised both by `min`/`max` on an empty sequence and by
  `int` on a non-numeric string), `ZeroDivisionError`.
* The standard output is modelled as the list of printed lines; stderr
  (the verbose diagnostics) is not modelled.
-/

deriving instance DecidableEq for Except

attribute [local semireducible] Rat.add Rat.mul Rat.inv Rat.sub

namespace Snowfall

/-- Uncaught exceptions of the script. `dataError` is the script's own
`DataError` class, raised for a malformed date and caught at top level;
the others are built-in Python exceptions that propagate out. -/
inductive Err where
  | dataError (msg : String)
  | indexError
  | valueError
  | zeroDivisionError
deriving DecidableEq

/-- A CSV data row, reduced to its two significant fields:
`date` is `row[date_column]`, and `value` models `row[data_column]`
(`none` for the empty string, `some q` for a string parsing to `q`). -/
structure Row where
  date : String
  value : Option ℚ
deriving DecidableEq

/-- The error message raised at line 76 of the source for a malformed date. -/
def dataErrorMsg (d : String) : String :=
  "ERROR: expected date to have the format of YYYY-MM-DD but got " ++ d

/-- Tail of the regex `\d{1,2}` at the end of the pattern: at least one
digit; as `re.match` only anchors at the start, trailing characters after
the matched prefix are allowed. -/
def matchDayPart : List Char → Bool
  | c :: _ => c.isDigit
  | [] => false

/-- Tail of the regex `\d{1,2}-\d{1,2}`. A two-digit month is tried
first (the regex is greedy); backtracking cannot rescue a failed match
here because a digit can never equal the literal `-`. -/
def matchMonthDay : List Char → Bool
  | c₁ :: '-' :: rest => c₁.isDigit && matchDayPart rest
  | c₁ :: c₂ :: '-' :: rest => c₁.isDigit && c₂.isDigit && matchDayPart rest
  | _ => false

/-- The check `date_expression.match(row[date_column]) != None` for the
pattern `\d{4}-\d{1,2}-\d{1,2}`: a prefix match (Python `re.match`).
ASCII digits model `\d`. -/
def dateMatch (s : String) : Bool :=
  match s.data with
  | c₁ :: c₂ :: c₃ :: c₄ :: '-' :: rest =>
      c₁.isDigit && c₂.isDigit && c₃.isDigit && c₄.isDigit && matchMonthDay rest
  | _ => false

/-- Python dict assignment `m[k] = v` on an insertion-ordered association
list: an existing key keeps its position and gets the new value, a new
key is appended at the end. -/
def upsert {α β : Type} [DecidableEq α] (m : List (α × β)) (k : α) (v : β) :
    List (α × β) :=
  match m with
  | [] => [(k, v)]
  | (k', v') :: rest => if k' = k then (k, v) :: rest else (k', v') :: upsert rest k v

/-- Python dict access `m.get(k)` / `m[k]` on the association-list model. -/
def lookupKey {α β : Type} [DecidableEq α] (k : α) : List (α × β) → Option β
  | [] => none
  | (k', v) :: rest => if k = k' then some v else lookupKey k rest

/-- Lines 80-84: an empty data field is treated as `0.0`, otherwise the
parsed float value is stored. -/
def rowValue (r : Row) : ℚ :=
  r.value.getD 0

/-- One iteration of the loading loop (lines 74-84) on a data row:
check the date format, raise `DataError` on failure, otherwise store the
value under the date key. -/
def loadRow (m : List (String × ℚ)) (r : Row) : Except Err (List (String × ℚ)) :=
  if dateMatch r.date then .ok (upsert m r.date (rowValue r)) else
    .error (.dataError (dataErrorMsg r.date))

/-- Lines 58-84: the first row is the header (only logged), every later
row is validated and stored, later rows overwriting earlier ones with the
same date. -/
def ingest (rows : List Row) : Except Err (List (String × ℚ)) :=
  match rows with
  | [] => .ok []
  | _header :: dataRows => dataRows.foldlM loadRow []

/-- Python `s.split(sep)` for a one-character separator: every occurrence
of the separator starts a new piece, and empty pieces are kept. -/
def splitOnChar (sep : Char) : List Char → List (List Char)
  | [] => [[]]
  | c :: rest =>
      match splitOnChar sep rest with
      | [] => if c = sep then [[], []] else [[c]]
      | piece :: ps =>
          if c = sep then [] :: piece :: ps else (c :: piece) :: ps

/-- Value of a non-empty all-digits string, as Python `int` computes it.
The strings this is applied to are pieces of a `-`-split date that
passed the regex, so signs, whitespace and underscores cannot occur. -/
def pyInt (s : List Char) : Option ℤ :=
  if s ≠ [] ∧ s.all Char.isDigit then
    some (s.foldl (fun n c => 10 * n + ((c.toNat : ℤ) - 48)) 0)
  else none

/-- Python `int(s)` raising `ValueError` on a non-numeric string. -/
def toIntE (s : List Char) : Except Err ℤ :=
  match pyInt s with
  | some n => .ok n
  | none => .error .valueError

/-- Python list indexing `parts[i]`, raising `IndexError` out of range. -/
def getPart {α : Type} (parts : List α) (i : ℕ) : Except Err α :=
  match parts[i]? with
  | some s => .ok s
  | none => .error .indexError

/-- Lines 98-103: winter is September through the following summer, so a
month after August belongs to the next year's season. -/
def seasonOf (year month : ℤ) : ℤ :=
  if 8 < month then year + 1 else year

/-- Python `set.add`: insert the element only if it is absent, so the
list stays duplicate-free. -/
def setAdd (l : List ℤ) (s : ℤ) : List ℤ :=
  if s ∈ l then l else l ++ [s]

/-- The mutable state of the segmentation loop: the per-season event
lists (`season_events`), and the start/end marker sets. -/
structure SegState where
  season_events : List (ℤ × List ℚ)
  season_start : List ℤ
  season_end : List ℤ
deriving DecidableEq

/-- Appending one value to `season_events[season]`, creating the entry
with a singleton list if absent (lines 117-120). -/
def appendEvent (m : List (ℤ × List ℚ)) (s : ℤ) (v : ℚ) : List (ℤ × List ℚ) :=
  match m with
  | [] => [(s, [v])]
  | (k, vs) :: rest =>
      if k = s then (k, vs ++ [v]) :: rest else (k, vs) :: appendEvent rest s v

/-- One iteration of the loop over the loaded dates (lines 87-120):
split the date string, parse year/month/day, record the season markers
regardless of the value, then skip values under the measurable threshold
`0.01` and append the rest to the season's event list. -/
def processDate (st : SegState) (e : String × ℚ) : Except Err SegState := do
  let parts := splitOnChar '-' e.1.data
  let year ← toIntE (← getPart parts 0)
  let month ← toIntE (← getPart parts 1)
  let day ← toIntE (← getPart parts 2)
  let season := seasonOf year month
  let st := if month = 9 ∧ day = 1 then
      { st with season_start := setAdd st.season_start season } else st
  let st := if month = 5 ∧ day = 31 then
      { st with season_end := setAdd st.season_end season } else st
  if e.2 < 1/100 then pure st
  else pure { st with season_events := appendEvent st.season_events season e.2 }

/-- The whole segmentation loop over the loaded data in insertion order. -/
def segment (data : List (String × ℚ)) : Except Err SegState :=
  data.foldlM processDate ⟨[], [], []⟩

/-- Line 124: `season_start & season_end`, the seasons having both a
September-1 and a May-31 record. -/
def fullSeasons (st : SegState) : List ℤ :=
  st.season_start.filter (fun s => s ∈ st.season_end)

/-- Line 132: the per-season event counts, over ALL seasons that have at
least one measurable event (not only the full ones). -/
def binEstimateCounts (st : SegState) : List ℕ :=
  st.season_events.map (fun e => e.2.length)

/-- Line 133: the per-season event totals. -/
def binEstimateTotals (st : SegState) : List ℚ :=
  st.season_events.map (fun e => e.2.sum)

/-- Line 134: the per-season single-day maxima. Each event list is
non-empty by construction, so the `getD 0` default is never used at the
call sites, which are guarded by `season_events ≠ []`. -/
def binEstimateMax (st : SegState) : List ℚ :=
  st.season_events.map (fun e => e.2.max?.getD 0)

/-- Python `range(a, b)` as a list of integers. -/
def intRange (a b : ℤ) : List ℤ :=
  (List.range (b - a).toNat).map (fun (i : ℕ) => a + (i : ℤ))

/-- Line 137: `range(0, int(ceil(max(bin_estimate_totals))) + 1)`. -/
def yearbinsOf (st : SegState) : List ℤ :=
  intRange 0 (⌈(binEstimateTotals st).max?.getD 0⌉ + 1)

/-- Line 141: `range(1, max(bin_estimate_counts) + 1)`. -/
def eventbinsOf (st : SegState) : List ℤ :=
  intRange 1 (((binEstimateCounts st).max?.getD 0 : ℤ) + 1)

/-- Lines 145-148: the per-day threshold ladder, multiples of `step`
rounded to five decimal places. -/
def binsOf (step : ℚ) (st : SegState) : List ℚ :=
  (intRange 1 (⌈(binEstimateMax st).max?.getD 0 / step⌉ + 1)).map
    (fun (b : ℤ) => ((round ((b : ℚ) * step * 100000) : ℤ) : ℚ) / 100000)

/-- Line 172: the event-count histogram increments bucket `b` when the
season's event count is at least `b` (non-strict). -/
def eventPred (events : List ℚ) (b : ℤ) : Bool :=
  decide (b ≤ (events.length : ℤ))

/-- Line 179: the total-amount histogram increments bucket `b` when the
season's total strictly exceeds `b`. -/
def totalPred (events : List ℚ) (b : ℤ) : Bool :=
  decide ((b : ℚ) < events.sum)

/-- Lines 185-188: the per-day histogram increments bucket `b` when some
observation of the season is at least `b`; the `break` makes the inner
loop an existence test, incrementing at most once per season. -/
def dayPred (events : List ℚ) (b : ℚ) : Bool :=
  events.any (fun a => decide (b ≤ a))

/-- `hist[bin] = hist.get(bin, 0) + 1` on the association-list model. -/
def histIncr {α : Type} [DecidableEq α] (h : List (α × ℕ)) (b : α) : List (α × ℕ) :=
  upsert h b ((lookupKey b h).getD 0 + 1)

/-- An inner aggregation loop: walk the bucket list and increment every
bucket satisfying the season's predicate. -/
def condIncrAll {α : Type} [DecidableEq α] (p : α → Bool) (L : List α)
    (h : List (α × ℕ)) : List (α × ℕ) :=
  L.foldl (fun h b => if p b then histIncr h b else h) h

/-- The three counting histograms threaded through the aggregation loop. -/
structure Hists where
  day_events : List (ℤ × ℕ)
  year_amount : List (ℤ × ℕ)
  day_amount : List (ℚ × ℕ)
deriving DecidableEq

/-- One iteration of the aggregation loop (lines 160-188): non-full
seasons are skipped, full seasons run the three inner bucket loops. -/
def aggStep (full : List ℤ) (eventbins yearbins : List ℤ) (bins : List ℚ)
    (H : Hists) (e : ℤ × List ℚ) : Hists :=
  if e.1 ∈ full then
    { day_events := condIncrAll (eventPred e.2) eventbins H.day_events
      year_amount := condIncrAll (totalPred e.2) yearbins H.year_amount
      day_amount := condIncrAll (dayPred e.2) bins H.day_amount }
  else H

/-- The aggregation loop from a given starting state. -/
def aggFold (full : List ℤ) (eventbins yearbins : List ℤ) (bins : List ℚ)
    (seasons : List (ℤ × List ℚ)) (H : Hists) : Hists :=
  seasons.foldl (aggStep full eventbins yearbins bins) H

/-- Lines 159-188: the aggregation loop over `season_events` in insertion
order, starting from three empty histograms. -/
def aggregate (full : List ℤ) (eventbins yearbins : List ℤ) (bins : List ℚ)
    (seasons : List (ℤ × List ℚ)) : Hists :=
  aggFold full eventbins yearbins bins seasons ⟨[], [], []⟩

/-- The aggregation applied to a segmentation state, with the bucket
domains the source derives from ALL seasons with events. -/
def aggregateOf (step : ℚ) (st : SegState) : Hists :=
  aggregate (fullSeasons st) (eventbinsOf st) (yearbinsOf st) (binsOf step st)
    st.season_events

/-- Lines 125-126 and 191: `total_years = float(max_season - min_season)`,
the span of the full-season labels (not their count). The `getD` defaults
are unreachable: the call site is guarded by `fullSeasons st ≠ []`, which
models the `ValueError` Python's `min`/`max` raise on an empty set. -/
def denomOf (full : List ℤ) : ℚ :=
  ((full.max?.getD 0 - full.min?.getD 0 : ℤ) : ℚ)

/-- One normalization loop (lines 197-208): divide every bucket count by
the denominator. Iterating an empty dict performs no division, otherwise
a zero denominator raises `ZeroDivisionError` at the first bucket. -/
def normalizeHist {α : Type} [DecidableEq α] (d : ℚ) (h : List (α × ℕ)) :
    Except Err (List (α × ℚ)) :=
  match h with
  | [] => .ok []
  | _ :: _ => if d = 0 then .error .zeroDivisionError else
      .ok (h.map (fun e => (e.1, (e.2 : ℚ) / d)))

/-- The three final annual-exceedence dictionaries, in the return order
of line 211: `day_events_hist, year_amount_hist, day_amount_hist`. -/
abbrev Output := List (ℤ × ℚ) × List (ℤ × ℚ) × List (ℚ × ℚ)

/-- Lines 123-211 after the data is segmented: full-season bounds (a
`ValueError` from `min` on an empty set if there is no full season), the
bucket-domain maxima (a `ValueError` from `max` on an empty list if no
season has a measurable event), aggregation, and the three
normalizations in source order. -/
def stage3 (step : ℚ) (st : SegState) : Except Err Output :=
  if fullSeasons st = [] then .error .valueError
  else if st.season_events = [] then .error .valueError
  else do
    let d := denomOf (fullSeasons st)
    let H := aggregateOf step st
    let de ← normalizeHist d H.day_events
    let ya ← normalizeHist d H.year_amount
    let da ← normalizeHist d H.day_amount
    pure (de, ya, da)

/-- The whole `main` function: ingestion, segmentation, and the
histogram stages, with the first uncaught exception short-circuiting. -/
def pipeline (step : ℚ) (rows : List Row) : Except Err Output := do
  let data ← ingest rows
  let st ← segment data
  stage3 step st

/-- The printed report (lines 326-348): three titled CSV blocks separated
by blank lines, each data line `probability,bucket`. -/
def outputLines (label : String) (out : Output) : List String :=
  (("Annual Excedence, Annual " ++ label ++ " Days Likelihood") ::
      out.1.map (fun e => toString e.2 ++ "," ++ toString e.1)) ++
    [""] ++
    (("Annual Excedence, Annual " ++ label ++ " Total Likelihood") ::
      out.2.1.map (fun e => toString e.2 ++ "," ++ toString e.1)) ++
    [""] ++
    (("Annual Excedence, Daily " ++ label ++ " Total Likelihood") ::
      out.2.2.map (fun e => toString e.2 ++ "," ++ toString e.1))

/-- Lines 310-350, the `__main__` block: on success print the three
blocks; a `DataError` is caught and only its message is printed; any
other exception propagates and nothing reaches standard output. -/
def runMain (label : String) (step : ℚ) (rows : List Row) : List String :=
  match pipeline step rows with
  | .ok out => outputLines label out
  | .error (.dataError msg) => [msg]
  | .error _ => []

end Snowfall

namespace Snowfall

/-! ### Association-list lemmas -/

theorem lookupKey_upsert {α β : Type} [DecidableEq α] (m : List (α × β)) (k k' : α)
    (v : β) :
    lookupKey k' (upsert m k v) = if k' = k then some v else lookupKey k' m := by
  induction m with
  | nil => by_cases h : k' = k <;> simp [upsert, lookupKey, h]
  | cons hd tl ih =>
      obtain ⟨a, b⟩ := hd
      by_cases hak : a = k
      · subst hak
        by_cases h : k' = a <;> simp [upsert, lookupKey, h]
      · by_cases h : k' = a
        · subst h
          simp [upsert, hak, lookupKey, Ne.symm hak]
        · simp [upsert, hak, lookupKey, h, ih]

/-- The keys of an association list. -/
def keysOf {α β : Type} (m : List (α × β)) : List α :=
  m.map Prod.fst

theorem keysOf_upsert {α β : Type} [DecidableEq α] (m : List (α × β)) (k : α) (v : β) :
    keysOf (upsert m k v) = if k ∈ keysOf m then keysOf m else keysOf m ++ [k] := by
  induction m with
  | nil => simp [upsert, keysOf]
  | cons hd tl ih =>
      obtain ⟨a, b⟩ := hd
      by_cases hak : a = k
      · subst hak
        simp [upsert, keysOf]
      · have hka : ¬k = a := fun h => hak h.symm
        simp only [upsert, if_neg hak, keysOf, List.map_cons] at ih ⊢
        rw [ih]
        by_cases hk : k ∈ List.map Prod.fst tl
        · simp [hk, hka]
        · simp [hk, hka]

theorem keysOf_upsert_nodup {α β : Type} [DecidableEq α] (m : List (α × β)) (k : α)
    (v : β) (h : (keysOf m).Nodup) : (keysOf (upsert m k v)).Nodup := by
  rw [keysOf_upsert]
  by_cases hk : k ∈ keysOf m
  · simpa [hk]
  · rw [if_neg hk]
    exact h.append (List.nodup_singleton k)
      (fun a ha hak => hk ((List.mem_singleton.mp hak) ▸ ha))

theorem lookupKey_eq_some_of_mem {α β : Type} [DecidableEq α] (m : List (α × β))
    (k : α) (v : β) (hnd : (keysOf m).Nodup) (hm : (k, v) ∈ m) :
    lookupKey k m = some v := by
  induction m with
  | nil => cases hm
  | cons hd tl ih =>
      obtain ⟨a, b⟩ := hd
      simp only [keysOf, List.map_cons, List.nodup_cons] at hnd
      rcases List.mem_cons.mp hm with heq | htl
      · injection heq with h1 h2
        subst h1
        subst h2
        simp [lookupKey]
      · have hk : ¬k = a := by
          rintro rfl
          exact hnd.1 (by simpa using List.mem_map_of_mem Prod.fst htl)
        simp [lookupKey, hk, ih hnd.2 htl]

theorem mem_of_lookupKey_eq_some {α β : Type} [DecidableEq α] (m : List (α × β))
    (k : α) (v : β) (h : lookupKey k m = some v) : (k, v) ∈ m := by
  induction m with
  | nil => simp [lookupKey] at h
  | cons hd tl ih =>
      obtain ⟨a, b⟩ := hd
      by_cases hk : k = a
      · subst hk
        simp [lookupKey] at h
        subst h
        exact List.mem_cons_self _ _
      · simp only [lookupKey, if_neg hk] at h
        exact List.mem_cons_of_mem _ (ih h)

theorem isSome_lookupKey_iff {α β : Type} [DecidableEq α] (m : List (α × β)) (k : α) :
    (lookupKey k m).isSome ↔ k ∈ keysOf m := by
  induction m with
  | nil => simp [lookupKey, keysOf]
  | cons hd tl ih =>
      obtain ⟨a, b⟩ := hd
      by_cases hk : k = a <;> simp [lookupKey, keysOf, hk, ih]

/-! ### Histogram-increment lemmas -/

theorem lookupKey_histIncr {α : Type} [DecidableEq α] (h : List (α × ℕ)) (b b' : α) :
    lookupKey b' (histIncr h b) =
      if b' = b then some ((lookupKey b h).getD 0 + 1) else lookupKey b' h :=
  lookupKey_upsert ..

theorem keysOf_histIncr_nodup {α : Type} [DecidableEq α] (h : List (α × ℕ)) (b : α)
    (hnd : (keysOf h).Nodup) : (keysOf (histIncr h b)).Nodup :=
  keysOf_upsert_nodup _ _ _ hnd

theorem lookupKey_condIncrAll {α : Type} [DecidableEq α] (p : α → Bool) (L : List α)
    (h : List (α × ℕ)) (b : α) :
    lookupKey b (condIncrAll p L h) =
      if p b = true ∧ b ∈ L then some ((lookupKey b h).getD 0 + L.count b)
      else lookupKey b h := by
  induction L generalizing h with
  | nil => simp [condIncrAll]
  | cons c L' ih =>
      have hstep : condIncrAll p (c :: L') h =
          condIncrAll p L' (if p c then histIncr h c else h) := by
        simp [condIncrAll]
      rw [hstep, ih]
      by_cases hbc : b = c
      · subst hbc
        by_cases hp : p b = true
        · by_cases hbL : b ∈ L'
          · simp [hp, hbL, lookupKey_histIncr, List.count_cons_self,
              Nat.add_assoc, Nat.add_comm 1]
          · simp [hp, hbL, lookupKey_histIncr, List.count_cons_self,
              List.count_eq_zero_of_not_mem hbL]
        · have hp' : p b = false := by simpa using hp
          simp [hp']
      · have hpres : lookupKey b (if p c = true then histIncr h c else h) = lookupKey b h := by
          by_cases hpc : p c = true
          · simp [hpc, lookupKey_histIncr, hbc]
          · simp [hpc]
        by_cases hp : p b = true
        · by_cases hbL : b ∈ L'
          · have hcount : (c :: L').count b = L'.count b := by
              simp [List.count_cons, hbc]
            simp [hp, hbL, hbc, hcount, hpres]
          · simp [hp, hbL, hbc, hpres]
        · have hp' : p b = false := by simpa using hp
          simp [hp', hbc, hpres]

theorem keysOf_condIncrAll_nodup {α : Type} [DecidableEq α] (p : α → Bool)
    (L : List α) (h : List (α × ℕ)) (hnd : (keysOf h).Nodup) :
    (keysOf (condIncrAll p L h)).Nodup := by
  induction L generalizing h with
  | nil => simpa [condIncrAll]
  | cons c L' ih =>
      have hstep : condIncrAll p (c :: L') h =
          condIncrAll p L' (if p c then histIncr h c else h) := by
        simp [condIncrAll]
      rw [hstep]
      by_cases hp : p c = true
      · exact ih _ (by simpa [hp] using keysOf_histIncr_nodup h c hnd)
      · have hp' : p c = false := by simpa using hp
        exact ih _ (by simpa [hp'] using hnd)


/-! ### Characterization of the aggregation loop -/

/-- One histogram of the aggregation loop in isolation: fold over the
seasons, skipping the non-full ones, and run the inner bucket loop with
the season's predicate. -/
def runHist {α : Type} [DecidableEq α] (full : List ℤ) (L : List α)
    (P : List ℚ → α → Bool) (seasons : List (ℤ × List ℚ)) (h₀ : List (α × ℕ)) :
    List (α × ℕ) :=
  seasons.foldl (fun h e => if e.1 ∈ full then condIncrAll (P e.2) L h else h) h₀

/-- The number of seasons of the list that are full and satisfy the
bucket predicate at `b`. -/
def matchCount {α : Type} (full : List ℤ) (P : List ℚ → α → Bool) (b : α)
    (seasons : List (ℤ × List ℚ)) : ℕ :=
  seasons.countP (fun e => decide (e.1 ∈ full) && P e.2 b)

theorem runHist_lookup {α : Type} [DecidableEq α] (full : List ℤ) (L : List α)
    (P : List ℚ → α → Bool) (seasons : List (ℤ × List ℚ)) (h₀ : List (α × ℕ))
    (b : α) :
    lookupKey b (runHist full L P seasons h₀) =
      if b ∈ L ∧ 0 < matchCount full P b seasons then
        some ((lookupKey b h₀).getD 0 + L.count b * matchCount full P b seasons)
      else lookupKey b h₀ := by
  induction seasons generalizing h₀ with
  | nil => simp [runHist, matchCount]
  | cons e rest ih =>
      have hstep : runHist full L P (e :: rest) h₀ =
          runHist full L P rest (if e.1 ∈ full then condIncrAll (P e.2) L h₀ else h₀) := by
        simp [runHist]
      have hmc : matchCount full P b (e :: rest) =
          (if e.1 ∈ full ∧ P e.2 b = true then 1 else 0) + matchCount full P b rest := by
        by_cases hf : e.1 ∈ full
        · by_cases hpb : P e.2 b = true
          · simp [matchCount, List.countP_cons, hf, hpb, Nat.add_comm]
          · simp [matchCount, List.countP_cons, hf, hpb]
        · simp [matchCount, List.countP_cons, hf]
      rw [hstep, ih, hmc]
      by_cases hf : e.1 ∈ full
      · by_cases hpb : P e.2 b = true
        · by_cases hbL : b ∈ L
          · -- the head season contributes `L.count b` to bucket `b`
            have hlk2 : lookupKey b (condIncrAll (P e.2) L h₀) =
                some ((lookupKey b h₀).getD 0 + L.count b) := by
              rw [lookupKey_condIncrAll]
              simp [hpb, hbL]
            by_cases hrest : 0 < matchCount full P b rest
            · have h1 : (0:ℕ) < 1 + matchCount full P b rest :=
                Nat.lt_of_lt_of_le hrest (Nat.le_add_left _ _)
              simp only [hf, if_true, hpb, and_self, hbL, true_and, if_pos hrest,
                if_pos h1, hlk2, Option.getD_some]
              congr 1
              ring
            · have hr0 : matchCount full P b rest = 0 := Nat.eq_zero_of_not_pos hrest
              simp only [hf, if_true, hpb, and_self, hbL, true_and, hr0, hrest,
                and_false, if_false, hlk2]
              simp
          · -- b is not a bucket at all: nothing can change
            have hlk2 : lookupKey b (condIncrAll (P e.2) L h₀) = lookupKey b h₀ := by
              rw [lookupKey_condIncrAll]
              simp [hbL]
            simp [hf, hbL, hlk2]
        · -- the head season does not satisfy the predicate at b
          have hpb' : P e.2 b = false := by simpa using hpb
          have hlk2 : lookupKey b (condIncrAll (P e.2) L h₀) = lookupKey b h₀ := by
            rw [lookupKey_condIncrAll]
            simp [hpb']
          simp [hf, hpb', hlk2]
      · -- head season not full: state unchanged
        simp [hf]

theorem aggFold_step (full : List ℤ) (eb yb : List ℤ) (db : List ℚ)
    (e : ℤ × List ℚ) (rest : List (ℤ × List ℚ)) (H : Hists) :
    aggFold full eb yb db (e :: rest) H =
      aggFold full eb yb db rest (aggStep full eb yb db H e) := by
  simp [aggFold]

theorem aggFold_day_events (full : List ℤ) (eb yb : List ℤ) (db : List ℚ)
    (seasons : List (ℤ × List ℚ)) (H : Hists) :
    (aggFold full eb yb db seasons H).day_events =
      runHist full eb eventPred seasons H.day_events := by
  induction seasons generalizing H with
  | nil => rfl
  | cons e rest ih =>
      rw [aggFold_step, ih]
      by_cases hf : e.1 ∈ full
      · simp [runHist, aggStep, hf]
      · simp [runHist, aggStep, hf]

theorem aggFold_year_amount (full : List ℤ) (eb yb : List ℤ) (db : List ℚ)
    (seasons : List (ℤ × List ℚ)) (H : Hists) :
    (aggFold full eb yb db seasons H).year_amount =
      runHist full yb totalPred seasons H.year_amount := by
  induction seasons generalizing H with
  | nil => rfl
  | cons e rest ih =>
      rw [aggFold_step, ih]
      by_cases hf : e.1 ∈ full
      · simp [runHist, aggStep, hf]
      · simp [runHist, aggStep, hf]

theorem aggFold_day_amount (full : List ℤ) (eb yb : List ℤ) (db : List ℚ)
    (seasons : List (ℤ × List ℚ)) (H : Hists) :
    (aggFold full eb yb db seasons H).day_amount =
      runHist full db dayPred seasons H.day_amount := by
  induction seasons generalizing H with
  | nil => rfl
  | cons e rest ih =>
      rw [aggFold_step, ih]
      by_cases hf : e.1 ∈ full
      · simp [runHist, aggStep, hf]
      · simp [runHist, aggStep, hf]

theorem aggregate_day_events_lookup (full : List ℤ) (eb yb : List ℤ) (db : List ℚ)
    (seasons : List (ℤ × List ℚ)) (b : ℤ) :
    lookupKey b (aggregate full eb yb db seasons).day_events =
      if b ∈ eb ∧ 0 < matchCount full eventPred b seasons then
        some (eb.count b * matchCount full eventPred b seasons)
      else none := by
  have h : (aggregate full eb yb db seasons).day_events =
      runHist full eb eventPred seasons [] := aggFold_day_events ..
  rw [h, runHist_lookup]
  simp [lookupKey]

theorem aggregate_year_amount_lookup (full : List ℤ) (eb yb : List ℤ) (db : List ℚ)
    (seasons : List (ℤ × List ℚ)) (b : ℤ) :
    lookupKey b (aggregate full eb yb db seasons).year_amount =
      if b ∈ yb ∧ 0 < matchCount full totalPred b seasons then
        some (yb.count b * matchCount full totalPred b seasons)
      else none := by
  have h : (aggregate full eb yb db seasons).year_amount =
      runHist full yb totalPred seasons [] := aggFold_year_amount ..
  rw [h, runHist_lookup]
  simp [lookupKey]

theorem aggregate_day_amount_lookup (full : List ℤ) (eb yb : List ℤ) (db : List ℚ)
    (seasons : List (ℤ × List ℚ)) (b : ℚ) :
    lookupKey b (aggregate full eb yb db seasons).day_amount =
      if b ∈ db ∧ 0 < matchCount full dayPred b seasons then
        some (db.count b * matchCount full dayPred b seasons)
      else none := by
  have h : (aggregate full eb yb db seasons).day_amount =
      runHist full db dayPred seasons [] := aggFold_day_amount ..
  rw [h, runHist_lookup]
  simp [lookupKey]

theorem keysOf_runHist_nodup {α : Type} [DecidableEq α] (full : List ℤ) (L : List α)
    (P : List ℚ → α → Bool) (seasons : List (ℤ × List ℚ)) (h₀ : List (α × ℕ))
    (hnd : (keysOf h₀).Nodup) : (keysOf (runHist full L P seasons h₀)).Nodup := by
  induction seasons generalizing h₀ with
  | nil => simpa [runHist]
  | cons e rest ih =>
      have hstep : runHist full L P (e :: rest) h₀ =
          runHist full L P rest (if e.1 ∈ full then condIncrAll (P e.2) L h₀ else h₀) := by
        simp [runHist]
      rw [hstep]
      by_cases hf : e.1 ∈ full
      · exact ih _ (by simpa [hf] using keysOf_condIncrAll_nodup (P e.2) L h₀ hnd)
      · exact ih _ (by simpa [hf] using hnd)

/-! ### Normalization lemmas -/

theorem normalizeHist_eq_ok {α : Type} [DecidableEq α] (d : ℚ) (h : List (α × ℕ))
    (hd : d ≠ 0) :
    normalizeHist d h = .ok (h.map (fun e => (e.1, (e.2 : ℚ) / d))) := by
  cases h with
  | nil => simp [normalizeHist]
  | cons a t => simp [normalizeHist, hd]

theorem normalizeHist_ok_inv {α : Type} [DecidableEq α] {d : ℚ} {h : List (α × ℕ)}
    {h' : List (α × ℚ)} (hok : normalizeHist d h = .ok h') :
    h' = h.map (fun e => (e.1, (e.2 : ℚ) / d)) ∧ (h ≠ [] → d ≠ 0) := by
  cases h with
  | nil =>
      simp only [normalizeHist] at hok
      cases hok
      simp
  | cons a t =>
      by_cases hd : d = 0
      · simp [normalizeHist, hd] at hok
      · simp only [normalizeHist, if_neg hd] at hok
        cases hok
        exact ⟨rfl, fun _ => hd⟩

theorem lookupKey_map_val {α β γ : Type} [DecidableEq α] (h : List (α × β))
    (f : β → γ) (b : α) :
    lookupKey b (h.map (fun e => (e.1, f e.2))) = (lookupKey b h).map f := by
  induction h with
  | nil => simp [lookupKey]
  | cons a t ih =>
      obtain ⟨k, v⟩ := a
      by_cases hk : b = k <;> simp [lookupKey, hk, ih]

theorem mem_map_val {α β γ : Type} (h : List (α × β)) (f : β → γ) (b : α) (w : γ)
    (hm : (b, w) ∈ h.map (fun e => (e.1, f e.2))) : ∃ n, (b, n) ∈ h ∧ w = f n := by
  rcases List.mem_map.mp hm with ⟨⟨k, v⟩, hkv, heq⟩
  have hk : k = b := congrArg Prod.fst heq
  have hw : f v = w := congrArg Prod.snd heq
  exact ⟨v, hk ▸ hkv, hw.symm⟩

/-! ### Stage and pipeline inversion -/

theorem exc_bind_ok {ε α β : Type} (a : α) (f : α → Except ε β) :
    (Except.ok a >>= f) = f a := rfl

theorem exc_bind_error {ε α β : Type} (e : ε) (f : α → Except ε β) :
    ((Except.error e : Except ε α) >>= f) = .error e := rfl

theorem stage3_unfold (step : ℚ) (st : SegState) (h1 : ¬fullSeasons st = [])
    (h2 : ¬st.season_events = []) :
    stage3 step st =
      (normalizeHist (denomOf (fullSeasons st)) (aggregateOf step st).day_events >>=
        fun de =>
          normalizeHist (denomOf (fullSeasons st)) (aggregateOf step st).year_amount >>=
            fun ya =>
              normalizeHist (denomOf (fullSeasons st)) (aggregateOf step st).day_amount >>=
                fun da => pure (de, ya, da)) := by
  unfold stage3
  rw [if_neg h1, if_neg h2]

theorem stage3_eq (step : ℚ) (st : SegState) (h1 : ¬fullSeasons st = [])
    (h2 : ¬st.season_events = []) (hd : denomOf (fullSeasons st) ≠ 0) :
    stage3 step st = .ok
      ((aggregateOf step st).day_events.map
          (fun e => (e.1, (e.2 : ℚ) / denomOf (fullSeasons st))),
        (aggregateOf step st).year_amount.map
          (fun e => (e.1, (e.2 : ℚ) / denomOf (fullSeasons st))),
        (aggregateOf step st).day_amount.map
          (fun e => (e.1, (e.2 : ℚ) / denomOf (fullSeasons st)))) := by
  rw [stage3_unfold step st h1 h2]
  rw [normalizeHist_eq_ok _ _ hd, exc_bind_ok, normalizeHist_eq_ok _ _ hd,
    exc_bind_ok, normalizeHist_eq_ok _ _ hd, exc_bind_ok]
  rfl

theorem stage3_ok_inv {step : ℚ} {st : SegState} {out : Output}
    (hok : stage3 step st = .ok out) :
    ¬fullSeasons st = [] ∧ ¬st.season_events = [] ∧
    out.1 = (aggregateOf step st).day_events.map
        (fun e => (e.1, (e.2 : ℚ) / denomOf (fullSeasons st))) ∧
    out.2.1 = (aggregateOf step st).year_amount.map
        (fun e => (e.1, (e.2 : ℚ) / denomOf (fullSeasons st))) ∧
    out.2.2 = (aggregateOf step st).day_amount.map
        (fun e => (e.1, (e.2 : ℚ) / denomOf (fullSeasons st))) ∧
    ((aggregateOf step st).day_events ≠ [] → denomOf (fullSeasons st) ≠ 0) ∧
    ((aggregateOf step st).year_amount ≠ [] → denomOf (fullSeasons st) ≠ 0) ∧
    ((aggregateOf step st).day_amount ≠ [] → denomOf (fullSeasons st) ≠ 0) := by
  by_cases h1 : fullSeasons st = []
  · unfold stage3 at hok
    rw [if_pos h1] at hok
    cases hok
  by_cases h2 : st.season_events = []
  · unfold stage3 at hok
    rw [if_neg h1, if_pos h2] at hok
    cases hok
  rw [stage3_unfold step st h1 h2] at hok
  cases hde : normalizeHist (denomOf (fullSeasons st)) (aggregateOf step st).day_events with
  | error e => rw [hde, exc_bind_error] at hok; cases hok
  | ok de =>
      rw [hde, exc_bind_ok] at hok
      cases hya : normalizeHist (denomOf (fullSeasons st)) (aggregateOf step st).year_amount with
      | error e => rw [hya, exc_bind_error] at hok; cases hok
      | ok ya =>
          rw [hya, exc_bind_ok] at hok
          cases hda : normalizeHist (denomOf (fullSeasons st)) (aggregateOf step st).day_amount with
          | error e => rw [hda, exc_bind_error] at hok; cases hok
          | ok da =>
              rw [hda, exc_bind_ok] at hok
              have hout : out = (de, ya, da) := by
                cases hok
                rfl
              obtain ⟨hie1, hie2⟩ := normalizeHist_ok_inv hde
              obtain ⟨hiy1, hiy2⟩ := normalizeHist_ok_inv hya
              obtain ⟨hia1, hia2⟩ := normalizeHist_ok_inv hda
              subst hout
              exact ⟨h1, h2, hie1, hiy1, hia1, hie2, hiy2, hia2⟩

theorem pipeline_def (step : ℚ) (rows : List Row) :
    pipeline step rows =
      (ingest rows >>= fun data => segment data >>= fun st => stage3 step st) := rfl

theorem pipeline_inv {step : ℚ} {rows : List Row} {out : Output}
    (h : pipeline step rows = .ok out) :
    ∃ data st, ingest rows = .ok data ∧ segment data = .ok st ∧
      stage3 step st = .ok out := by
  rw [pipeline_def] at h
  cases hi : ingest rows with
  | error e => rw [hi, exc_bind_error] at h; cases h
  | ok data =>
      rw [hi, exc_bind_ok] at h
      cases hs : segment data with
      | error e => rw [hs, exc_bind_error] at h; cases h
      | ok st =>
          rw [hs, exc_bind_ok] at h
          exact ⟨data, st, rfl, hs, h⟩

theorem pipeline_eq_stage3 {rows : List Row} {data : List (String × ℚ)}
    {st : SegState} (step : ℚ) (hi : ingest rows = .ok data)
    (hs : segment data = .ok st) : pipeline step rows = stage3 step st := by
  rw [pipeline_def, hi, exc_bind_ok, hs, exc_bind_ok]

/-! ### Ingestion lemmas -/

theorem getLast?_cons_eq {α : Type} (a : α) (l : List α) :
    (a :: l).getLast? = some (l.getLast?.getD a) := by
  induction l generalizing a with
  | nil => rfl
  | cons b t ih =>
      rw [List.getLast?_cons_cons, ih b]
      simp [ih b]

theorem keysOf_upsert_toFinset {α β : Type} [DecidableEq α] (m : List (α × β))
    (k : α) (v : β) :
    (keysOf (upsert m k v)).toFinset = insert k (keysOf m).toFinset := by
  rw [keysOf_upsert]
  by_cases hk : k ∈ keysOf m
  · rw [if_pos hk]
    exact (Finset.insert_eq_self.mpr (by simpa using hk)).symm
  · rw [if_neg hk]
    rw [List.toFinset_append]
    simp [Finset.union_comm, Finset.insert_eq]

/-- The loading loop on validated data rows: it succeeds, the final map
answers every date with the value of the last row carrying that date, the
keys stay duplicate-free, and the key set is the set of row dates. -/
theorem loadRow_fold_ok (dataRows : List Row) (m : List (String × ℚ))
    (hall : ∀ r ∈ dataRows, dateMatch r.date = true) :
    ∃ m', dataRows.foldlM loadRow m = .ok m' ∧
      (∀ d, lookupKey d m' =
        ((dataRows.filter (fun r => decide (r.date = d))).getLast?).elim
          (lookupKey d m) (fun r => some (rowValue r))) ∧
      ((keysOf m).Nodup → (keysOf m').Nodup) ∧
      (keysOf m').toFinset = (keysOf m).toFinset ∪ (dataRows.map Row.date).toFinset := by
  induction dataRows generalizing m with
  | nil => exact ⟨m, rfl, fun d => by simp, fun h => h, by simp⟩
  | cons r rest ih =>
      have hr : dateMatch r.date = true := hall r (List.mem_cons_self r rest)
      have hrest : ∀ x ∈ rest, dateMatch x.date = true :=
        fun x hx => hall x (List.mem_cons_of_mem r hx)
      obtain ⟨m', hfold, hlook, hnd, hkeys⟩ := ih (upsert m r.date (rowValue r)) hrest
      refine ⟨m', ?_, ?_, ?_, ?_⟩
      · rw [List.foldlM_cons]
        have : loadRow m r = .ok (upsert m r.date (rowValue r)) := by
          simp [loadRow, hr]
        rw [this, exc_bind_ok]
        exact hfold
      · intro d
        rw [hlook d]
        by_cases hd : r.date = d
        · subst hd
          have hfc : (r :: rest).filter (fun x => decide (x.date = r.date)) =
              r :: rest.filter (fun x => decide (x.date = r.date)) := by
            simp [List.filter_cons]
          rw [hfc, getLast?_cons_eq]
          cases hfl : (rest.filter (fun x => decide (x.date = r.date))).getLast? with
          | none => simp [hfl, lookupKey_upsert]
          | some x => simp [hfl]
        · have hfc : (r :: rest).filter (fun x => decide (x.date = d)) =
              rest.filter (fun x => decide (x.date = d)) := by
            simp [List.filter_cons, hd]
          rw [hfc]
          cases hfl : (rest.filter (fun x => decide (x.date = d))).getLast? with
          | none =>
              have hdd : ¬d = r.date := fun h => hd h.symm
              simp [hfl, lookupKey_upsert, hdd]
          | some x => simp [hfl]
      · exact fun h => hnd (keysOf_upsert_nodup m r.date (rowValue r) h)
      · rw [hkeys, keysOf_upsert_toFinset]
        simp only [List.map_cons, List.toFinset_cons, Finset.insert_union,
          Finset.union_insert]

/-! ### Error classification: only ingestion raises `DataError` -/

theorem getPart_error {α : Type} {parts : List α} {i : ℕ} {err : Err}
    (h : getPart parts i = .error err) : err = .indexError := by
  cases hg : parts[i]? with
  | some s => simp [getPart, hg] at h
  | none =>
      simp only [getPart, hg] at h
      exact (Except.error.inj h).symm

theorem toIntE_error {s : List Char} {err : Err} (h : toIntE s = .error err) :
    err = .valueError := by
  cases hg : pyInt s with
  | some n => simp [toIntE, hg] at h
  | none =>
      simp only [toIntE, hg] at h
      exact (Except.error.inj h).symm

theorem processDate_error {st : SegState} {e : String × ℚ} {err : Err}
    (h : processDate st e = .error err) : err = .indexError ∨ err = .valueError := by
  simp only [processDate] at h
  cases h0 : getPart (splitOnChar '-' e.1.data) 0 with
  | error e0 =>
      rw [h0, exc_bind_error] at h
      cases h
      exact .inl (getPart_error h0)
  | ok p0 =>
      rw [h0, exc_bind_ok] at h
      cases h1 : toIntE p0 with
      | error e1 =>
          rw [h1, exc_bind_error] at h
          cases h
          exact .inr (toIntE_error h1)
      | ok year =>
          rw [h1, exc_bind_ok] at h
          cases h2 : getPart (splitOnChar '-' e.1.data) 1 with
          | error e2 =>
              rw [h2, exc_bind_error] at h
              cases h
              exact .inl (getPart_error h2)
          | ok p1 =>
              rw [h2, exc_bind_ok] at h
              cases h3 : toIntE p1 with
              | error e3 =>
                  rw [h3, exc_bind_error] at h
                  cases h
                  exact .inr (toIntE_error h3)
              | ok month =>
                  rw [h3, exc_bind_ok] at h
                  cases h4 : getPart (splitOnChar '-' e.1.data) 2 with
                  | error e4 =>
                      rw [h4, exc_bind_error] at h
                      cases h
                      exact .inl (getPart_error h4)
                  | ok p2 =>
                      rw [h4, exc_bind_ok] at h
                      cases h5 : toIntE p2 with
                      | error e5 =>
                          rw [h5, exc_bind_error] at h
                          cases h
                          exact .inr (toIntE_error h5)
                      | ok day =>
                          rw [h5, exc_bind_ok] at h
                          rcases ite_eq_iff.mp h with ⟨_, h'⟩ | ⟨_, h'⟩ <;> cases h'

theorem segment_fold_error {data : List (String × ℚ)} :
    ∀ {st : SegState} {err : Err}, data.foldlM processDate st = .error err →
      err = .indexError ∨ err = .valueError := by
  induction data with
  | nil =>
      intro st err h
      cases h
  | cons e rest ih =>
      intro st err h
      rw [List.foldlM_cons] at h
      cases hp : processDate st e with
      | error e0 =>
          rw [hp, exc_bind_error] at h
          cases h
          exact processDate_error hp
      | ok st' =>
          rw [hp, exc_bind_ok] at h
          exact ih h

theorem segment_error {data : List (String × ℚ)} {err : Err}
    (h : segment data = .error err) : err = .indexError ∨ err = .valueError :=
  segment_fold_error h

theorem normalizeHist_error {α : Type} [DecidableEq α] {d : ℚ} {h : List (α × ℕ)}
    {err : Err} (he : normalizeHist d h = .error err) : err = .zeroDivisionError := by
  cases h with
  | nil => cases he
  | cons a t =>
      by_cases hd : d = 0
      · simp only [normalizeHist, if_pos hd] at he
        exact (Except.error.inj he).symm
      · simp [normalizeHist, hd] at he

theorem stage3_error {step : ℚ} {st : SegState} {err : Err}
    (h : stage3 step st = .error err) :
    err = .valueError ∨ err = .zeroDivisionError := by
  by_cases h1 : fullSeasons st = []
  · unfold stage3 at h
    rw [if_pos h1] at h
    cases h
    exact .inl rfl
  by_cases h2 : st.season_events = []
  · unfold stage3 at h
    rw [if_neg h1, if_pos h2] at h
    cases h
    exact .inl rfl
  rw [stage3_unfold step st h1 h2] at h
  cases hde : normalizeHist (denomOf (fullSeasons st)) (aggregateOf step st).day_events with
  | error e =>
      rw [hde, exc_bind_error] at h
      cases h
      exact .inr (normalizeHist_error hde)
  | ok de =>
      rw [hde, exc_bind_ok] at h
      cases hya : normalizeHist (denomOf (fullSeasons st)) (aggregateOf step st).year_amount with
      | error e =>
          rw [hya, exc_bind_error] at h
          cases h
          exact .inr (normalizeHist_error hya)
      | ok ya =>
          rw [hya, exc_bind_ok] at h
          cases hda : normalizeHist (denomOf (fullSeasons st)) (aggregateOf step st).day_amount with
          | error e =>
              rw [hda, exc_bind_error] at h
              cases h
              exact .inr (normalizeHist_error hda)
          | ok da =>
              rw [hda, exc_bind_ok] at h
              cases h

/-- A bad date in the data rows makes the loading loop raise `DataError`. -/
theorem loadRow_fold_error (dataRows : List Row) (m : List (String × ℚ))
    (hbad : ∃ r ∈ dataRows, dateMatch r.date = false) :
    ∃ s, dataRows.foldlM loadRow m = .error (.dataError s) := by
  induction dataRows generalizing m with
  | nil =>
      obtain ⟨r, hr, _⟩ := hbad
      cases hr
  | cons r rest ih =>
      rw [List.foldlM_cons]
      by_cases hr : dateMatch r.date = true
      · have hstep : loadRow m r = .ok (upsert m r.date (rowValue r)) := by
          simp [loadRow, hr]
        rw [hstep, exc_bind_ok]
        obtain ⟨b, hb, hbf⟩ := hbad
        rcases List.mem_cons.mp hb with rfl | hbrest
        · rw [hr] at hbf
          cases hbf
        · exact ih _ ⟨b, hbrest, hbf⟩
      · have hr' : dateMatch r.date = false := by simpa using hr
        refine ⟨dataErrorMsg r.date, ?_⟩
        have hstep : loadRow m r = .error (.dataError (dataErrorMsg r.date)) := by
          simp [loadRow, hr']
        rw [hstep, exc_bind_error]

/-- The converse: the loading loop only raises `DataError` at a bad date. -/
theorem loadRow_fold_dataError {dataRows : List Row} {m : List (String × ℚ)}
    {s : String} (h : dataRows.foldlM loadRow m = .error (.dataError s)) :
    ∃ r ∈ dataRows, dateMatch r.date = false := by
  induction dataRows generalizing m with
  | nil => cases h
  | cons r rest ih =>
      rw [List.foldlM_cons] at h
      by_cases hr : dateMatch r.date = true
      · have hstep : loadRow m r = .ok (upsert m r.date (rowValue r)) := by
          simp [loadRow, hr]
        rw [hstep, exc_bind_ok] at h
        obtain ⟨b, hb, hbf⟩ := ih h
        exact ⟨b, List.mem_cons_of_mem r hb, hbf⟩
      · exact ⟨r, List.mem_cons_self r rest, by simpa using hr⟩

theorem pipeline_error_of_ingest (step : ℚ) {rows : List Row} {err : Err}
    (h : ingest rows = .error err) : pipeline step rows = .error err := by
  rw [pipeline_def, h, exc_bind_error]

/-! ### Numeric helper lemmas -/

theorem foldl_min_le_init (as : List ℤ) (a : ℤ) : as.foldl min a ≤ a := by
  induction as generalizing a with
  | nil => exact le_refl a
  | cons b t ih => exact le_trans (ih (min a b)) (min_le_left a b)

theorem init_le_foldl_max (as : List ℤ) (a : ℤ) : a ≤ as.foldl max a := by
  induction as generalizing a with
  | nil => exact le_refl a
  | cons b t ih => exact le_trans (le_max_left a b) (ih (max a b))

theorem denomOf_nonneg (full : List ℤ) (h : ¬full = []) : 0 ≤ denomOf full := by
  cases full with
  | nil => exact absurd rfl h
  | cons a as =>
      have h1 : (a :: as).min? = some (as.foldl min a) := rfl
      have h2 : (a :: as).max? = some (as.foldl max a) := rfl
      unfold denomOf
      rw [h1, h2]
      simp only [Option.getD_some]
      have hle : as.foldl min a ≤ as.foldl max a :=
        le_trans (foldl_min_le_init as a) (init_le_foldl_max as a)
      have hz : (0:ℤ) ≤ as.foldl max a - as.foldl min a := sub_nonneg.mpr hle
      exact_mod_cast hz

theorem intRange_nodup (a b : ℤ) : (intRange a b).Nodup := by
  have hdef : intRange a b =
      List.map (fun (i : ℕ) => a + (i : ℤ)) (List.range (b - a).toNat) := rfl
  rw [hdef]
  refine List.Nodup.map ?_ (List.nodup_range _)
  intro i j hij
  have h : (i : ℤ) = (j : ℤ) := add_left_cancel hij
  exact_mod_cast h

theorem round_le_round_q {x y : ℚ} (h : x ≤ y) : round x ≤ round y := by
  rw [round_eq, round_eq]
  exact Int.floor_le_floor (by linarith)

theorem round_strict_step {c : ℚ} (hc : 1 ≤ c) {i j : ℤ} (hij : i < j) :
    round ((i : ℚ) * c) < round ((j : ℚ) * c) := by
  have hji : (1 : ℚ) ≤ (j : ℚ) - (i : ℚ) := by
    have : i + 1 ≤ j := hij
    have hcast : (i : ℚ) + 1 ≤ (j : ℚ) := by exact_mod_cast this
    linarith
  have h2 : (1 : ℚ) * c ≤ ((j : ℚ) - (i : ℚ)) * c :=
    mul_le_mul_of_nonneg_right hji (by linarith)
  have h1 : (i : ℚ) * c + 1 ≤ (j : ℚ) * c := by nlinarith
  have h3 : round ((i : ℚ) * c) + 1 = round ((i : ℚ) * c + 1) := by
    rw [round_eq, round_eq]
    have : (i : ℚ) * c + 1 + 1 / 2 = ((i : ℚ) * c + 1 / 2) + 1 := by ring
    rw [this, Int.floor_add_one]
  have h4 : round ((i : ℚ) * c + 1) ≤ round ((j : ℚ) * c) := round_le_round_q h1
  omega

theorem binsOf_strictMono (step : ℚ) (hstep : 1 / 100000 ≤ step)
    {i j : ℤ} (hij : i < j) :
    ((round ((i : ℚ) * step * 100000) : ℤ) : ℚ) / 100000 <
      ((round ((j : ℚ) * step * 100000) : ℤ) : ℚ) / 100000 := by
  have hc : (1 : ℚ) ≤ step * 100000 := by linarith
  have h1 : round ((i : ℚ) * (step * 100000)) < round ((j : ℚ) * (step * 100000)) :=
    round_strict_step hc hij
  have h2 : ((round ((i : ℚ) * (step * 100000)) : ℤ) : ℚ) <
      ((round ((j : ℚ) * (step * 100000)) : ℤ) : ℚ) := by exact_mod_cast h1
  have h3 : (i : ℚ) * step * 100000 = (i : ℚ) * (step * 100000) := by ring
  have h4 : (j : ℚ) * step * 100000 = (j : ℚ) * (step * 100000) := by ring
  rw [h3, h4]
  exact (div_lt_div_iff_of_pos_right (by norm_num)).mpr h2

theorem binsOf_nodup (step : ℚ) (st : SegState) (hstep : 1 / 100000 ≤ step) :
    (binsOf step st).Nodup := by
  unfold binsOf
  refine List.Nodup.map ?_ (intRange_nodup _ _)
  intro i j hij
  rcases lt_trichotomy i j with h | h | h
  · exact absurd hij (ne_of_lt (binsOf_strictMono step hstep h))
  · exact h
  · exact absurd hij.symm (ne_of_lt (binsOf_strictMono step hstep h))

/-- A count bounded by one for every element of a duplicate-free list. -/
theorem count_eq_one_of_nodup_mem {α : Type} [DecidableEq α] {L : List α} {b : α}
    (hnd : L.Nodup) (hb : b ∈ L) : L.count b = 1 :=
  List.count_eq_one_of_mem hnd hb

/-- Monotone decrease of the normalized histogram along a duplicate-free
bucket list with a threshold-antitone predicate. -/
theorem mono_values {α : Type} [DecidableEq α] [LinearOrder α] (full : List ℤ)
    {L : List α} (hL : L.Nodup) (P : List ℚ → α → Bool)
    (hP : ∀ evs b₁ b₂, b₁ ≤ b₂ → P evs b₂ = true → P evs b₁ = true)
    (seasons : List (ℤ × List ℚ)) {d : ℚ} (hd : 0 < d) {b₁ b₂ : α} {v₁ v₂ : ℚ}
    (h₁ : (b₁, v₁) ∈ (runHist full L P seasons []).map (fun e => (e.1, (e.2 : ℚ) / d)))
    (h₂ : (b₂, v₂) ∈ (runHist full L P seasons []).map (fun e => (e.1, (e.2 : ℚ) / d)))
    (hlt : b₁ < b₂) : v₂ ≤ v₁ := by
  have hnd : (keysOf (runHist full L P seasons [])).Nodup :=
    keysOf_runHist_nodup full L P seasons [] (by simp [keysOf])
  obtain ⟨n₁, hn₁, hv₁⟩ := mem_map_val _ (fun (n : ℕ) => (n : ℚ) / d) _ _ h₁
  obtain ⟨n₂, hn₂, hv₂⟩ := mem_map_val _ (fun (n : ℕ) => (n : ℚ) / d) _ _ h₂
  have hl₁ : lookupKey b₁ (runHist full L P seasons []) = some n₁ :=
    lookupKey_eq_some_of_mem _ _ _ hnd hn₁
  have hl₂ : lookupKey b₂ (runHist full L P seasons []) = some n₂ :=
    lookupKey_eq_some_of_mem _ _ _ hnd hn₂
  rw [runHist_lookup] at hl₁ hl₂
  by_cases hc₁ : b₁ ∈ L ∧ 0 < matchCount full P b₁ seasons
  swap
  · rw [if_neg hc₁] at hl₁
    simp [lookupKey] at hl₁
  by_cases hc₂ : b₂ ∈ L ∧ 0 < matchCount full P b₂ seasons
  swap
  · rw [if_neg hc₂] at hl₂
    simp [lookupKey] at hl₂
  rw [if_pos hc₁] at hl₁
  rw [if_pos hc₂] at hl₂
  simp only [lookupKey, Option.getD_none, Nat.zero_add, Option.some.injEq] at hl₁ hl₂
  have hcnt₁ : L.count b₁ = 1 := count_eq_one_of_nodup_mem hL hc₁.1
  have hcnt₂ : L.count b₂ = 1 := count_eq_one_of_nodup_mem hL hc₂.1
  have hmono : matchCount full P b₂ seasons ≤ matchCount full P b₁ seasons := by
    refine List.countP_mono_left ?_
    intro e _ he
    rcases Bool.and_eq_true_iff.mp he with ⟨hfull, hpe⟩
    exact Bool.and_eq_true_iff.mpr ⟨hfull, hP e.2 b₁ b₂ (le_of_lt hlt) hpe⟩
  have hn : n₂ ≤ n₁ := by
    rw [← hl₁, ← hl₂, hcnt₁, hcnt₂]
    simpa using hmono
  rw [hv₁, hv₂]
  have hcast : (n₂ : ℚ) ≤ (n₁ : ℚ) := by exact_mod_cast hn
  exact (div_le_div_iff_of_pos_right hd).mpr hcast

/-! ### Claim theorems -/

/-- C6: for every date whose month is in {9,10,11,12} the assigned season
is the calendar year plus 1, and for months 1..8 it is the calendar year;
the dates 2020-09-01, 2021-05-31, 2021-06-01 and 2021-08-31 all map to
season 2021 (shown on the segmentation of the corresponding single-entry
data, which also records the markers of the two marker dates). -/
theorem C6_season_assignment :
    (∀ year month : ℤ, (month = 9 ∨ month = 10 ∨ month = 11 ∨ month = 12) →
      seasonOf year month = year + 1) ∧
    (∀ year month : ℤ, 1 ≤ month → month ≤ 8 → seasonOf year month = year) ∧
    segment [("2020-09-01", 1)] = .ok ⟨[(2021, [1])], [2021], []⟩ ∧
    segment [("2021-05-31", 1)] = .ok ⟨[(2021, [1])], [], [2021]⟩ ∧
    segment [("2021-06-01", 1)] = .ok ⟨[(2021, [1])], [], []⟩ ∧
    segment [("2021-08-31", 1)] = .ok ⟨[(2021, [1])], [], []⟩ := by
  refine ⟨?_, ?_, by decide, by decide, by decide, by decide⟩
  · rintro y m (rfl | rfl | rfl | rfl) <;> norm_num [seasonOf]
  · intro y m h1 h2
    have h : ¬(8 < m) := by omega
    simp [seasonOf, h]

/-- C6 witness: the rule applied at the concrete months 12 and 3. -/
theorem C6_season_assignment_witness :
    seasonOf 2020 12 = 2021 ∧ seasonOf 2020 3 = 2020 :=
  ⟨C6_season_assignment.1 2020 12 (by norm_num),
    C6_season_assignment.2.1 2020 3 (by norm_num) (by norm_num)⟩

/-- C2: in the aggregation over full seasons, the event-count histogram
counts bucket `b` once per full season whose event count is `≥ b`, the
total-amount histogram counts bucket `b` once per full season whose total
is strictly `> b`, and the per-day histogram counts bucket `b` once per
full season having some observation `≥ b`; the strict-versus-non-strict
asymmetry between the total-amount histogram and the other two is exactly
as stated (each count is additionally multiplied by the multiplicity of
the bucket in its bin list, which is 1 for duplicate-free bin lists). -/
theorem C2_comparison_operators (full : List ℤ) (eventbins yearbins : List ℤ)
    (bins : List ℚ) (seasons : List (ℤ × List ℚ)) (bE bY : ℤ) (bD : ℚ) :
    (lookupKey bE (aggregate full eventbins yearbins bins seasons).day_events =
      if bE ∈ eventbins ∧
          0 < matchCount full (fun evs b => decide (b ≤ (evs.length : ℤ))) bE seasons then
        some (eventbins.count bE *
          matchCount full (fun evs b => decide (b ≤ (evs.length : ℤ))) bE seasons)
      else none) ∧
    (lookupKey bY (aggregate full eventbins yearbins bins seasons).year_amount =
      if bY ∈ yearbins ∧
          0 < matchCount full (fun evs b => decide ((b : ℚ) < evs.sum)) bY seasons then
        some (yearbins.count bY *
          matchCount full (fun evs b => decide ((b : ℚ) < evs.sum)) bY seasons)
      else none) ∧
    (lookupKey bD (aggregate full eventbins yearbins bins seasons).day_amount =
      if bD ∈ bins ∧
          0 < matchCount full (fun evs b => evs.any (fun a => decide (b ≤ a))) bD seasons then
        some (bins.count bD *
          matchCount full (fun evs b => evs.any (fun a => decide (b ≤ a))) bD seasons)
      else none) :=
  ⟨aggregate_day_events_lookup full eventbins yearbins bins seasons bE,
    aggregate_year_amount_lookup full eventbins yearbins bins seasons bY,
    aggregate_day_amount_lookup full eventbins yearbins bins seasons bD⟩

/-- C9 counterexample: on an input with no full season at all, the run
fails with the `ValueError` that Python's `min` raises on an empty
sequence (at line 125), not with a `ZeroDivisionError` from the
normalization at lines 197-208. -/
theorem C9_empty_full_seasons_cex :
    pipeline (1/10) [⟨"STATION,NAME,DATE,SNOW", none⟩, ⟨"2020-01-15", some (1/2)⟩] =
      .error .valueError ∧
    Err.valueError ≠ Err.zeroDivisionError := by
  exact ⟨by decide, by decide⟩

/-- C9 amended: if the set of full seasons is empty, the run fails — but
with a `ValueError` from `min()` over the empty full-season set, raised
during the season-bound computation before normalization is ever
reached; no division by zero occurs. -/
theorem C9_empty_full_seasons_amended (step : ℚ) (rows : List Row)
    (data : List (String × ℚ)) (st : SegState) (hi : ingest rows = .ok data)
    (hs : segment data = .ok st) (hfull : fullSeasons st = []) :
    pipeline step rows = .error .valueError := by
  rw [pipeline_eq_stage3 step hi hs]
  unfold stage3
  rw [if_pos hfull]

/-- C9 witness: the amended statement applied to a concrete input with a
single mid-season observation and hence no full season. -/
theorem C9_empty_full_seasons_amended_witness :
    pipeline (1/10) [⟨"STATION,NAME,DATE,SNOW", none⟩, ⟨"2021-02-02", some 1⟩] =
      .error .valueError :=
  C9_empty_full_seasons_amended (1/10) _ [("2021-02-02", 1)]
    ⟨[(2021, [1])], [], []⟩ (by decide) (by decide) (by decide)

/-- C10: if the full-season set holds exactly one label and some
histogram bucket received a count, the denominator `max − min` is zero
and the run fails with `ZeroDivisionError` during normalization. -/
theorem C10_single_full_season_zero_division (step : ℚ) (rows : List Row)
    (data : List (String × ℚ)) (st : SegState) (s : ℤ)
    (hi : ingest rows = .ok data) (hs : segment data = .ok st)
    (hfull : fullSeasons st = [s])
    (hne : ¬((aggregateOf step st).day_events = [] ∧
        (aggregateOf step st).year_amount = [] ∧
        (aggregateOf step st).day_amount = [])) :
    pipeline step rows = .error .zeroDivisionError := by
  rw [pipeline_eq_stage3 step hi hs]
  have h1 : ¬fullSeasons st = [] := by
    rw [hfull]
    simp
  have h2 : ¬st.season_events = [] := by
    intro h
    apply hne
    have hagg : aggregateOf step st = ⟨[], [], []⟩ := by
      unfold aggregateOf aggregate aggFold
      rw [h]
      rfl
    rw [hagg]
    exact ⟨rfl, rfl, rfl⟩
  have hd : denomOf (fullSeasons st) = 0 := by
    rw [hfull]
    unfold denomOf
    norm_num
  rw [stage3_unfold step st h1 h2, hd]
  rcases hE : (aggregateOf step st).day_events with _ | ⟨e₁, t₁⟩
  · rcases hY : (aggregateOf step st).year_amount with _ | ⟨e₂, t₂⟩
    · rcases hD : (aggregateOf step st).day_amount with _ | ⟨e₃, t₃⟩
      · exact absurd ⟨hE, hY, hD⟩ hne
      · simp [hE, hY, hD, normalizeHist, exc_bind_ok, exc_bind_error]
    · simp [hE, hY, normalizeHist, exc_bind_ok, exc_bind_error]
  · simp [hE, normalizeHist, exc_bind_error]

/-- C10 witness: one full season (2021) carrying one measurable event. -/
theorem C10_single_full_season_zero_division_witness :
    pipeline (1/10)
      [⟨"STATION,NAME,DATE,SNOW", none⟩, ⟨"2020-9-1", some (1/2)⟩,
        ⟨"2021-5-31", some 0⟩] = .error .zeroDivisionError :=
  C10_single_full_season_zero_division (1/10) _
    [("2020-9-1", 1/2), ("2021-5-31", 0)] ⟨[(2021, [1/2])], [2021], [2021]⟩ 2021
    (by decide) (by decide) (by decide) (by decide)

/-- Specialized map-division lookup, stated with the exact map shape the
normalization produces. -/
theorem lookupKey_map_div {α : Type} [DecidableEq α] (h : List (α × ℕ)) (d : ℚ)
    (b : α) :
    lookupKey b (h.map (fun e => (e.1, (e.2 : ℚ) / d))) =
      (lookupKey b h).map (fun (n : ℕ) => (n : ℚ) / d) := by
  induction h with
  | nil => simp [lookupKey]
  | cons a t ih =>
      obtain ⟨k, v⟩ := a
      by_cases hk : b = k <;> simp [lookupKey, hk, ih]

/-- C8 counterexample: a duplicate date collapses into one dictionary
entry, so two data rows produce one entry, not `rows − 1 = 2`; the later
row's value (2) wins. -/
theorem C8_ingestion_count_cex :
    ingest [⟨"STATION,NAME,DATE,SNOW", none⟩, ⟨"2020-09-01", some 1⟩,
        ⟨"2020-09-01", some 2⟩] = .ok [("2020-09-01", 2)] ∧
    ¬([(("2020-09-01" : String), (2 : ℚ))].length =
        [(⟨"STATION,NAME,DATE,SNOW", none⟩ : Row), ⟨"2020-09-01", some 1⟩,
          ⟨"2020-09-01", some 2⟩].length - 1) := by
  exact ⟨by decide, by decide⟩

/-- C8 amended: when every data row's date matches the pattern, ingestion
succeeds and produces one entry per DISTINCT data-row date (this equals
`rows − 1` only when no two data rows share a date), and each date maps
to the value of the last data row carrying it (last write wins). -/
theorem C8_ingestion_amended (rows : List Row)
    (hall : ∀ r ∈ rows.drop 1, dateMatch r.date = true) :
    ∃ m, ingest rows = .ok m ∧
      m.length = ((rows.drop 1).map Row.date).dedup.length ∧
      (∀ d, lookupKey d m =
        (((rows.drop 1).filter (fun r => decide (r.date = d))).getLast?).map rowValue) := by
  cases rows with
  | nil => exact ⟨[], rfl, by simp, fun d => by simp [lookupKey]⟩
  | cons hdr dataRows =>
      have hall' : ∀ r ∈ dataRows, dateMatch r.date = true := by
        intro r hr
        exact hall r (by simpa using hr)
      obtain ⟨m, hfold, hlook, hnd, hkeys⟩ := loadRow_fold_ok dataRows [] hall'
      have hdrop : (hdr :: dataRows).drop 1 = dataRows := rfl
      refine ⟨m, hfold, ?_, ?_⟩
      · have hnd' : (keysOf m).Nodup := hnd (by simp [keysOf])
        have hlen : m.length = (keysOf m).length := by simp [keysOf]
        rw [hlen, ← List.toFinset_card_of_nodup hnd', hkeys, hdrop]
        have hempty : (keysOf ([] : List (String × ℚ))).toFinset = ∅ := rfl
        rw [hempty, Finset.empty_union, List.card_toFinset]
      · intro d
        rw [hlook d, hdrop]
        cases hgl : (dataRows.filter (fun r => decide (r.date = d))).getLast? with
        | none => simp [lookupKey]
        | some x => simp

/-- C8 witness: the amended statement at a concrete three-row input with
a duplicated date: one entry, keyed by the duplicated date, holding the
later value. -/
theorem C8_ingestion_amended_witness :
    ∃ m, ingest [⟨"STATION,NAME,DATE,SNOW", none⟩, ⟨"2020-09-01", some 1⟩,
        ⟨"2020-09-01", some 2⟩] = .ok m ∧
      m.length = 1 ∧ lookupKey "2020-09-01" m = some 2 := by
  obtain ⟨m, h1, h2, h3⟩ := C8_ingestion_amended
    [⟨"STATION,NAME,DATE,SNOW", none⟩, ⟨"2020-09-01", some 1⟩,
      ⟨"2020-09-01", some 2⟩] (by decide)
  refine ⟨m, h1, ?_, ?_⟩
  · rw [h2]
    decide
  · rw [h3 "2020-09-01"]
    decide

/-- C5: a `DataError` surfaces from the pipeline exactly when some data
row's date field fails the `\d{4}-\d{1,2}-\d{1,2}` prefix check — a
matching date never raises it — and when it is raised the program prints
only the error message: no histogram title and no data line. -/
theorem C5_malformed_date_behavior (label : String) (step : ℚ) (rows : List Row) :
    ((∃ s, pipeline step rows = .error (.dataError s)) ↔
      (∃ r ∈ rows.drop 1, dateMatch r.date = false)) ∧
    (∀ s, pipeline step rows = .error (.dataError s) →
      runMain label step rows = [s]) := by
  constructor
  · constructor
    · rintro ⟨s, hs⟩
      cases hi : ingest rows with
      | error e =>
          have hp := pipeline_error_of_ingest step hi
          rw [hs] at hp
          have he : Err.dataError s = e := Except.error.inj hp
          cases rows with
          | nil => cases hi
          | cons hdr dataRows =>
              have hfold : dataRows.foldlM loadRow [] = .error (.dataError s) := by
                rw [← he] at hi
                exact hi
              have hdrop : (hdr :: dataRows).drop 1 = dataRows := rfl
              rw [hdrop]
              exact loadRow_fold_dataError hfold
      | ok data =>
          cases hseg : segment data with
          | error e =>
              have hp : pipeline step rows = .error e := by
                rw [pipeline_def, hi, exc_bind_ok, hseg, exc_bind_error]
              rw [hs] at hp
              have he : Err.dataError s = e := Except.error.inj hp
              rcases segment_error hseg with h | h <;> rw [← he] at h <;> cases h
          | ok st =>
              cases hst : stage3 step st with
              | error e =>
                  have hp : pipeline step rows = .error e := by
                    rw [pipeline_def, hi, exc_bind_ok, hseg, exc_bind_ok, hst]
                  rw [hs] at hp
                  have he : Err.dataError s = e := Except.error.inj hp
                  rcases stage3_error hst with h | h <;> rw [← he] at h <;> cases h
              | ok out =>
                  have hp : pipeline step rows = .ok out := by
                    rw [pipeline_def, hi, exc_bind_ok, hseg, exc_bind_ok, hst]
                  rw [hs] at hp
                  cases hp
    · rintro ⟨r, hr, hbad⟩
      cases rows with
      | nil => cases hr
      | cons hdr dataRows =>
          have hr' : r ∈ dataRows := by simpa using hr
          obtain ⟨s, hserr⟩ := loadRow_fold_error dataRows [] ⟨r, hr', hbad⟩
          refine ⟨s, pipeline_error_of_ingest step ?_⟩
          exact hserr
  · intro s hp
    simp [runMain, hp]

/-- C5 witness: a malformed date ("13/45/2020") raises the error and the
program prints exactly the one error-message line. -/
theorem C5_malformed_date_behavior_witness :
    runMain "Snowfall" (1/10)
      [⟨"STATION,NAME,DATE,SNOW", none⟩, ⟨"13/45/2020", some 0⟩] =
      [dataErrorMsg "13/45/2020"] :=
  (C5_malformed_date_behavior "Snowfall" (1/10)
      [⟨"STATION,NAME,DATE,SNOW", none⟩, ⟨"13/45/2020", some 0⟩]).2
    (dataErrorMsg "13/45/2020") (by decide)

/-- Concrete input with two consecutive full seasons (2021 and 2022),
both carrying measurable events, used against C3 and for the C1 witness.
The label span is `2022 − 2021 = 1` while two seasons exceed the small
buckets, so "probabilities" of 2 appear. -/
def rowsTwoFull : List Row :=
  [⟨"STATION,NAME,DATE,SNOW", none⟩,
    ⟨"2020-9-1", some (1/2)⟩,
    ⟨"2021-5-31", some 0⟩,
    ⟨"2021-9-1", some (3/10)⟩,
    ⟨"2022-5-31", none⟩]

/-- The pipeline's output on `rowsTwoFull` with step `0.1`. -/
def outTwoFull : Output :=
  ([(1, 2)], ([(0, 2)], [(1/10, 2), (1/5, 2), (3/10, 2), (2/5, 1), (1/2, 1)]))

/-- C3 counterexample: the run on `rowsTwoFull` completes and the
event-count histogram assigns bucket 1 the value 2, which is not in
`[0, 1]`: two full seasons divided by a label span of one. -/
theorem C3_unit_interval_cex :
    pipeline (1/10) rowsTwoFull = .ok outTwoFull ∧
    lookupKey 1 outTwoFull.1 = some 2 ∧ ¬((2 : ℚ) ≤ 1) := by
  exact ⟨by decide, by decide, by decide⟩

/-- C3 amended: every probability value in each of the three output
histograms is nonnegative; the upper bound 1 does not hold in general
(the denominator is the label span, which can be smaller than the number
of counted full seasons). -/
theorem C3_probabilities_nonneg (step : ℚ) (rows : List Row) (out : Output)
    (hok : pipeline step rows = .ok out) :
    (∀ b v, (b, v) ∈ out.1 → 0 ≤ v) ∧
    (∀ b v, (b, v) ∈ out.2.1 → 0 ≤ v) ∧
    (∀ b v, (b, v) ∈ out.2.2 → 0 ≤ v) := by
  obtain ⟨data, st, hi, hs, hst⟩ := pipeline_inv hok
  obtain ⟨h1, h2, he, hy, ha, _, _, _⟩ := stage3_ok_inv hst
  have hd0 : 0 ≤ denomOf (fullSeasons st) := denomOf_nonneg _ h1
  refine ⟨?_, ?_, ?_⟩
  · intro b v hm
    rw [he] at hm
    obtain ⟨n, _, hv⟩ :=
      mem_map_val _ (fun (n : ℕ) => (n : ℚ) / denomOf (fullSeasons st)) _ _ hm
    rw [hv]
    exact div_nonneg (by positivity) hd0
  · intro b v hm
    rw [hy] at hm
    obtain ⟨n, _, hv⟩ :=
      mem_map_val _ (fun (n : ℕ) => (n : ℚ) / denomOf (fullSeasons st)) _ _ hm
    rw [hv]
    exact div_nonneg (by positivity) hd0
  · intro b v hm
    rw [ha] at hm
    obtain ⟨n, _, hv⟩ :=
      mem_map_val _ (fun (n : ℕ) => (n : ℚ) / denomOf (fullSeasons st)) _ _ hm
    rw [hv]
    exact div_nonneg (by positivity) hd0

/-- C3 witness: nonnegativity of the value 2 observed at bucket 1 of the
event-count histogram of the concrete run. -/
theorem C3_probabilities_nonneg_witness : (0 : ℚ) ≤ 2 :=
  (C3_probabilities_nonneg (1/10) rowsTwoFull outTwoFull (by decide)).1 1 2 (by decide)

/-- C1: every value of each output histogram is the corresponding
aggregated bucket count divided by `denomOf (fullSeasons st)`, the same
denominator `float(max_season − min_season)` for all three histograms;
and on the full-season labels {2018, 2019, 2020} that denominator is
`2020 − 2018 = 2`, not 3. -/
theorem C1_normalization_denominator :
    (∀ (step : ℚ) (rows : List Row) (data : List (String × ℚ)) (st : SegState)
        (out : Output),
      ingest rows = .ok data → segment data = .ok st →
      pipeline step rows = .ok out →
      ((∀ b v, lookupKey b out.1 = some v → ∃ n,
          lookupKey b (aggregateOf step st).day_events = some n ∧
            v = (n : ℚ) / denomOf (fullSeasons st)) ∧
        (∀ b v, lookupKey b out.2.1 = some v → ∃ n,
          lookupKey b (aggregateOf step st).year_amount = some n ∧
            v = (n : ℚ) / denomOf (fullSeasons st)) ∧
        (∀ b v, lookupKey b out.2.2 = some v → ∃ n,
          lookupKey b (aggregateOf step st).day_amount = some n ∧
            v = (n : ℚ) / denomOf (fullSeasons st)))) ∧
    denomOf [2018, 2019, 2020] = 2 := by
  constructor
  · intro step rows data st out hi hs hok
    obtain ⟨data', st', hi', hs', hst⟩ := pipeline_inv hok
    rw [hi] at hi'
    have hdd : data = data' := Except.ok.inj hi'
    subst hdd
    rw [hs] at hs'
    have hss : st = st' := Except.ok.inj hs'
    subst hss
    obtain ⟨_, _, he, hy, ha, _, _, _⟩ := stage3_ok_inv hst
    refine ⟨?_, ?_, ?_⟩
    · intro b v hb
      rw [he, lookupKey_map_div] at hb
      cases hl : lookupKey b (aggregateOf step st).day_events with
      | none => rw [hl] at hb; cases hb
      | some n =>
          rw [hl] at hb
          exact ⟨n, rfl, (Option.some.inj hb).symm⟩
    · intro b v hb
      rw [hy, lookupKey_map_div] at hb
      cases hl : lookupKey b (aggregateOf step st).year_amount with
      | none => rw [hl] at hb; cases hb
      | some n =>
          rw [hl] at hb
          exact ⟨n, rfl, (Option.some.inj hb).symm⟩
    · intro b v hb
      rw [ha, lookupKey_map_div] at hb
      cases hl : lookupKey b (aggregateOf step st).day_amount with
      | none => rw [hl] at hb; cases hb
      | some n =>
          rw [hl] at hb
          exact ⟨n, rfl, (Option.some.inj hb).symm⟩
  · decide

/-- C1 witness: on the concrete two-full-season run, the probability 2 at
bucket 1 of the event-count histogram is its count divided by the
label-span denominator. -/
theorem C1_normalization_denominator_witness :
    ∃ n, lookupKey 1 (aggregateOf (1/10)
        ⟨[(2021, [1/2]), (2022, [3/10])], [2021, 2022], [2021, 2022]⟩).day_events =
        some n ∧
      (2 : ℚ) = (n : ℚ) / denomOf (fullSeasons
        ⟨[(2021, [1/2]), (2022, [3/10])], [2021, 2022], [2021, 2022]⟩) :=
  (C1_normalization_denominator.1 (1/10) rowsTwoFull
      [("2020-9-1", 1/2), ("2021-5-31", 0), ("2021-9-1", 3/10), ("2022-5-31", 0)]
      ⟨[(2021, [1/2]), (2022, [3/10])], [2021, 2022], [2021, 2022]⟩ outTwoFull
      (by decide) (by decide) (by decide)).1 1 2 (by decide)

/-- C7 counterexample: a season whose only records are the two markers
(values 0.0) IS classified full, but it is entirely absent from
`season_events`, the map from which the bucket domains are computed — its
event count does not "contribute to the bucket domain size"; indeed with
no other season present the run fails at `max()` of the empty
bucket-estimate lists instead of producing histograms. -/
theorem C7_zero_event_season_cex :
    segment [("2020-9-1", 0), ("2021-5-31", 0)] = .ok ⟨[], [2021], [2021]⟩ ∧
    fullSeasons ⟨[], [2021], [2021]⟩ = [2021] ∧
    lookupKey 2021 (⟨[], [2021], [2021]⟩ : SegState).season_events = none ∧
    pipeline (1/10)
      [⟨"STATION,NAME,DATE,SNOW", none⟩, ⟨"2020-9-1", some 0⟩,
        ⟨"2021-5-31", some 0⟩] = .error .valueError := by
  exact ⟨by decide, by decide, by decide, by decide⟩

/-- C7 amended: a season whose only records are a September-1 and a
May-31 observation with values below the measurable threshold is
classified full (markers are recorded regardless of the value), but it is
excluded from the per-season event map: it contributes nothing to the
bucket-domain computation and adds no count to any histogram bucket (the
aggregation of its empty event map is three empty histograms), and if it
is the only season with records the run fails with the `ValueError` of
`max()` on an empty sequence. -/
theorem C7_zero_event_season_amended (v₁ v₂ : ℚ) (h₁ : v₁ < 1/100)
    (h₂ : v₂ < 1/100) :
    segment [("2020-9-1", v₁), ("2021-5-31", v₂)] = .ok ⟨[], [2021], [2021]⟩ ∧
    2021 ∈ fullSeasons ⟨[], [2021], [2021]⟩ ∧
    (∀ step : ℚ, aggregateOf step ⟨[], [2021], [2021]⟩ = ⟨[], [], []⟩) ∧
    (∀ (step : ℚ) (hdr : Row),
      pipeline step [hdr, ⟨"2020-9-1", some v₁⟩, ⟨"2021-5-31", some v₂⟩] =
        .error .valueError) := by
  have hp1 : processDate ⟨[], [], []⟩ ("2020-9-1", v₁) = .ok ⟨[], [2021], []⟩ := by
    show (if v₁ < 1/100 then (pure (⟨[], [2021], []⟩ : SegState) : Except Err SegState)
        else pure ⟨appendEvent [] 2021 v₁, [2021], []⟩) = .ok ⟨[], [2021], []⟩
    rw [if_pos h₁]
    rfl
  have hp2 : processDate ⟨[], [2021], []⟩ ("2021-5-31", v₂) =
      .ok ⟨[], [2021], [2021]⟩ := by
    show (if v₂ < 1/100 then
          (pure (⟨[], [2021], [2021]⟩ : SegState) : Except Err SegState)
        else pure ⟨appendEvent [] 2021 v₂, [2021], [2021]⟩) =
      .ok ⟨[], [2021], [2021]⟩
    rw [if_pos h₂]
    rfl
  have hseg : segment [("2020-9-1", v₁), ("2021-5-31", v₂)] =
      .ok ⟨[], [2021], [2021]⟩ := by
    unfold segment
    rw [List.foldlM_cons, hp1, exc_bind_ok, List.foldlM_cons, hp2, exc_bind_ok]
    rfl
  refine ⟨hseg, by decide, fun step => rfl, ?_⟩
  intro step hdr
  have hl1 : loadRow [] ⟨"2020-9-1", some v₁⟩ = .ok [("2020-9-1", v₁)] := rfl
  have hl2 : loadRow [("2020-9-1", v₁)] ⟨"2021-5-31", some v₂⟩ =
      .ok [("2020-9-1", v₁), ("2021-5-31", v₂)] := rfl
  have hi : ingest [hdr, ⟨"2020-9-1", some v₁⟩, ⟨"2021-5-31", some v₂⟩] =
      .ok [("2020-9-1", v₁), ("2021-5-31", v₂)] := by
    show List.foldlM loadRow []
        [(⟨"2020-9-1", some v₁⟩ : Row), ⟨"2021-5-31", some v₂⟩] = _
    rw [List.foldlM_cons, hl1, exc_bind_ok, List.foldlM_cons, hl2, exc_bind_ok]
    rfl
  rw [pipeline_eq_stage3 step hi hseg]
  unfold stage3
  rw [if_neg (show ¬fullSeasons ⟨[], [2021], [2021]⟩ = [] by decide), if_pos rfl]

/-- C7 witness: the amended statement at the concrete values 0 and 1/200,
both below the measurable threshold. -/
theorem C7_zero_event_season_amended_witness :
    segment [("2020-9-1", 0), ("2021-5-31", 1/200)] = .ok ⟨[], [2021], [2021]⟩ ∧
    2021 ∈ fullSeasons ⟨[], [2021], [2021]⟩ ∧
    (∀ step : ℚ, aggregateOf step ⟨[], [2021], [2021]⟩ = ⟨[], [], []⟩) ∧
    (∀ (step : ℚ) (hdr : Row),
      pipeline step [hdr, ⟨"2020-9-1", some 0⟩, ⟨"2021-5-31", some (1/200)⟩] =
        .error .valueError) :=
  C7_zero_event_season_amended 0 (1/200) (by norm_num) (by norm_num)

/-- C4 amended: within each output histogram the probability is
monotonically non-increasing as the bucket threshold increases — for the
event-count and total-amount histograms unconditionally, and for the
per-day histogram whenever `step ≥ 1/100000` (for smaller steps two
distinct bin indices can round to the same five-decimal threshold, which
is then incremented twice per season, breaking monotonicity). -/
theorem C4_monotone_amended (step : ℚ) (rows : List Row) (out : Output)
    (hok : pipeline step rows = .ok out) :
    (∀ b₁ v₁ b₂ v₂, (b₁, v₁) ∈ out.1 → (b₂, v₂) ∈ out.1 → b₁ < b₂ → v₂ ≤ v₁) ∧
    (∀ b₁ v₁ b₂ v₂, (b₁, v₁) ∈ out.2.1 → (b₂, v₂) ∈ out.2.1 → b₁ < b₂ → v₂ ≤ v₁) ∧
    (1 / 100000 ≤ step →
      ∀ b₁ v₁ b₂ v₂, (b₁, v₁) ∈ out.2.2 → (b₂, v₂) ∈ out.2.2 → b₁ < b₂ →
        v₂ ≤ v₁) := by
  obtain ⟨data, st, hi, hs, hst⟩ := pipeline_inv hok
  obtain ⟨h1, h2, he, hy, ha, hde, hye, hae⟩ := stage3_ok_inv hst
  have hd0 : 0 ≤ denomOf (fullSeasons st) := denomOf_nonneg _ h1
  have hrunE : (aggregateOf step st).day_events =
      runHist (fullSeasons st) (eventbinsOf st) eventPred st.season_events [] := by
    unfold aggregateOf aggregate
    exact aggFold_day_events ..
  have hrunY : (aggregateOf step st).year_amount =
      runHist (fullSeasons st) (yearbinsOf st) totalPred st.season_events [] := by
    unfold aggregateOf aggregate
    exact aggFold_year_amount ..
  have hrunD : (aggregateOf step st).day_amount =
      runHist (fullSeasons st) (binsOf step st) dayPred st.season_events [] := by
    unfold aggregateOf aggregate
    exact aggFold_day_amount ..
  refine ⟨?_, ?_, ?_⟩
  · intro b₁ v₁ b₂ v₂ hm₁ hm₂ hlt
    rw [he, hrunE] at hm₁ hm₂
    have hne : (aggregateOf step st).day_events ≠ [] := by
      rw [hrunE]
      intro hnil
      rw [hnil] at hm₁
      simp at hm₁
    have hdpos : 0 < denomOf (fullSeasons st) :=
      lt_of_le_of_ne hd0 (Ne.symm (hde hne))
    refine mono_values (fullSeasons st) ?_ eventPred ?_ st.season_events hdpos
      hm₁ hm₂ hlt
    · unfold eventbinsOf
      exact intRange_nodup _ _
    · intro evs a b hab hpb
      simp only [eventPred, decide_eq_true_eq] at hpb ⊢
      omega
  · intro b₁ v₁ b₂ v₂ hm₁ hm₂ hlt
    rw [hy, hrunY] at hm₁ hm₂
    have hne : (aggregateOf step st).year_amount ≠ [] := by
      rw [hrunY]
      intro hnil
      rw [hnil] at hm₁
      simp at hm₁
    have hdpos : 0 < denomOf (fullSeasons st) :=
      lt_of_le_of_ne hd0 (Ne.symm (hye hne))
    refine mono_values (fullSeasons st) ?_ totalPred ?_ st.season_events hdpos
      hm₁ hm₂ hlt
    · unfold yearbinsOf
      exact intRange_nodup _ _
    · intro evs a b hab hpb
      simp only [totalPred, decide_eq_true_eq] at hpb ⊢
      have hab' : (a : ℚ) ≤ (b : ℚ) := by exact_mod_cast hab
      linarith
  · intro hstep b₁ v₁ b₂ v₂ hm₁ hm₂ hlt
    rw [ha, hrunD] at hm₁ hm₂
    have hne : (aggregateOf step st).day_amount ≠ [] := by
      rw [hrunD]
      intro hnil
      rw [hnil] at hm₁
      simp at hm₁
    have hdpos : 0 < denomOf (fullSeasons st) :=
      lt_of_le_of_ne hd0 (Ne.symm (hae hne))
    refine mono_values (fullSeasons st) (binsOf_nodup step st hstep) dayPred ?_
      st.season_events hdpos hm₁ hm₂ hlt
    intro evs a b hab hpb
    simp only [dayPred, List.any_eq_true, decide_eq_true_eq] at hpb ⊢
    obtain ⟨x, hx, hbx⟩ := hpb
    exact ⟨x, hx, le_trans hab hbx⟩

/-- Input for the C4 counterexample: two consecutive full seasons, one
event of exactly 0.01, and a step of 8·10⁻⁶ so that the per-day bin
ladder rounds the indices 2 and 3 to the same threshold 2·10⁻⁵. -/
def rowsTinyStep : List Row :=
  [⟨"STATION,NAME,DATE,SNOW", none⟩,
    ⟨"2020-9-1", some (1/100)⟩,
    ⟨"2021-5-31", none⟩,
    ⟨"2021-9-1", none⟩,
    ⟨"2022-5-31", none⟩]

/-- The segmentation state of `rowsTinyStep`. -/
def stTinyStep : SegState :=
  ⟨[(2021, [1/100])], [2021, 2022], [2021, 2022]⟩

set_option maxRecDepth 100000 in
/-- C4 counterexample: with step `1/125000` the run on `rowsTinyStep`
completes, and in its per-day-amount histogram the threshold `1/100000`
has probability 1 while the LARGER threshold `2/100000` has probability
2: the probability increases with the threshold, because the indices 2
and 3 of the bin ladder both round to `2/100000`, which is therefore
counted twice for the one matching season. -/
theorem C4_monotone_cex :
    (Except.map
        (fun o : Output =>
          (lookupKey ((1 : ℚ)/100000) o.2.2, lookupKey ((2 : ℚ)/100000) o.2.2))
        (pipeline (1/125000) rowsTinyStep)) = .ok (some 1, some 2) ∧
    ((1 : ℚ)/100000) < ((2 : ℚ)/100000) ∧ ¬((2 : ℚ) ≤ (1 : ℚ)) := by
  refine ⟨?_, by norm_num, by norm_num⟩
  have hi : ingest rowsTinyStep =
      .ok [("2020-9-1", 1/100), ("2021-5-31", 0), ("2021-9-1", 0), ("2022-5-31", 0)] := by
    decide
  have hs : segment
      [("2020-9-1", 1/100), ("2021-5-31", 0), ("2021-9-1", 0), ("2022-5-31", 0)] =
      .ok stTinyStep := by
    decide
  have h1 : ¬fullSeasons stTinyStep = [] := by decide
  have h2 : ¬stTinyStep.season_events = [] := by decide
  have hdne : denomOf (fullSeasons stTinyStep) ≠ 0 := by decide
  have hd1 : denomOf (fullSeasons stTinyStep) = 1 := by decide
  rw [pipeline_eq_stage3 _ hi hs, stage3_eq _ _ h1 h2 hdne]
  have hrun : (aggregateOf (1/125000) stTinyStep).day_amount =
      runHist (fullSeasons stTinyStep) (binsOf (1/125000) stTinyStep) dayPred
        stTinyStep.season_events [] := by
    unfold aggregateOf aggregate
    exact aggFold_day_amount ..
  have hb1mem : ((1 : ℚ)/100000) ∈ binsOf (1/125000) stTinyStep := by decide
  have hb2mem : ((2 : ℚ)/100000) ∈ binsOf (1/125000) stTinyStep := by decide
  have hc1 : (binsOf (1/125000) stTinyStep).count ((1 : ℚ)/100000) = 1 := by decide
  have hc2 : (binsOf (1/125000) stTinyStep).count ((2 : ℚ)/100000) = 2 := by decide
  have hmc1 : matchCount (fullSeasons stTinyStep) dayPred ((1 : ℚ)/100000)
      stTinyStep.season_events = 1 := by decide
  have hmc2 : matchCount (fullSeasons stTinyStep) dayPred ((2 : ℚ)/100000)
      stTinyStep.season_events = 1 := by decide
  have hl1 : lookupKey ((1 : ℚ)/100000)
      (aggregateOf (1/125000) stTinyStep).day_amount = some 1 := by
    rw [hrun, runHist_lookup, if_pos ⟨hb1mem, by rw [hmc1]; norm_num⟩, hc1, hmc1]
    rfl
  have hl2 : lookupKey ((2 : ℚ)/100000)
      (aggregateOf (1/125000) stTinyStep).day_amount = some 2 := by
    rw [hrun, runHist_lookup, if_pos ⟨hb2mem, by rw [hmc2]; norm_num⟩, hc2, hmc2]
    rfl
  have hm1 : lookupKey ((1 : ℚ)/100000)
      ((aggregateOf (1/125000) stTinyStep).day_amount.map
        (fun e => (e.1, (e.2 : ℚ) / denomOf (fullSeasons stTinyStep)))) =
      some 1 := by
    rw [lookupKey_map_div, hl1, hd1]
    norm_num
  have hm2 : lookupKey ((2 : ℚ)/100000)
      ((aggregateOf (1/125000) stTinyStep).day_amount.map
        (fun e => (e.1, (e.2 : ℚ) / denomOf (fullSeasons stTinyStep)))) =
      some 2 := by
    rw [lookupKey_map_div, hl2, hd1]
    norm_num
  simp only [Except.map, hm1, hm2]

/-- C4 witness: the amended statement at the benign step 0.1 on the
two-full-season input: in the per-day histogram the value at threshold
0.4 (probability 1) does not exceed the value at threshold 0.3
(probability 2). -/
theorem C4_monotone_amended_witness : (1 : ℚ) ≤ 2 :=
  (C4_monotone_amended (1/10) rowsTwoFull outTwoFull (by decide)).2.2
    (by norm_num) (3/10) 2 (2/5) 1 (by decide) (by decide) (by norm_num)

end Snowfall
